import Mathlib

/-
Verification of the table sync engine in sync_data.py: extraction, batched
upsert delivery to the sink, and orphan-record reconciliation. The pipeline
is embedded shallowly: rows are association lists of column name to scalar
value, the network is an oracle giving the outcome of each request, and each
Python function becomes a Lean function over these data.
-/

namespace SyncData

/-- Scalar values as they appear in extracted rows and in the JSON records the
sink returns when its key columns are listed. -/
inductive Value where
  | vstr (s : String)
  | vint (n : Int)
  | vbool (b : Bool)
  | vnull
deriving DecidableEq, Repr

/-- Python str() rendering of a scalar, applied to every key column both when
rows are read (str(row[col])) and when sink records are listed
(str(record[col])). -/
def Value.str : Value → String
  | .vstr s => s
  | .vint n => toString n
  | .vbool b => if b then "True" else "False"
  | .vnull => "None"

/-- A row: a mapping from column name to value, in column order. -/
abbrev Row := List (String × Value)

/-- Column lookup in a row (row[col]); a missing column is modelled as null,
the sync specs keep key_columns inside the columns of every row. -/
def rowGet (r : Row) (c : String) : Value :=
  match r.find? (fun p => decide (p.1 = c)) with
  | some p => p.2
  | none => Value.vnull

/-- The stringified key tuple of a row over the given key columns in declared
order: tuple(str(row[col]) for col in key_columns). -/
def keyTuple (cols : List String) (r : Row) : List String :=
  cols.map (fun c => (rowGet r c).str)

/-- Per-table configuration taken from QUERIES: the on_conflict columns used
for upsert, the delete_orphans flag, and the key_columns compared during
orphan deletion. -/
structure TableConfig where
  on_conflict : List String
  delete_orphans : Bool
  key_columns : List String
deriving DecidableEq, Repr

/-- BATCH_SIZE from the configuration section of the source. -/
def BATCH_SIZE : Nat := 1000

/-- Success test of one HTTP response: 200 <= status_code < 300. -/
def statusOk (status : Nat) : Bool := decide (200 ≤ status) && decide (status < 300)

/-- A responder that answers every request with the same status code. -/
def constResponder (s : Nat) : Nat → Nat := fun _ => s

/-- Model of the send-batch helper. statusOf gives the status code of the n-th
HTTP request that would be issued for this batch; the source issues exactly
one POST and returns success iff its status is 2xx, with no retry loop and no
backoff. The second component is the number of requests issued. -/
def sendBatch (statusOf : Nat → Nat) : Bool × Nat := (statusOk (statusOf 0), 1)

/-- Outcome of one batch delivery as seen by the reader loop: a 2xx response,
a non-2xx response (the helper returns False), or a transport exception that
unwinds to the enclosing handler. -/
inductive SendRes where
  | ok
  | reject
  | raise
deriving DecidableEq, Repr

/-- How the reader loop in upload_csv_to_supabase ended: the with-block ran to
completion, a failed batch caused an early return, an exception was caught by
the handler, or the file was missing so the function returned at once. -/
inductive UploadStatus where
  | completed
  | abortedBatch
  | caughtException
  | missingFile
deriving DecidableEq, Repr

/-- Mutable state of the reader loop: the rows of the batch being accumulated,
the key tuples tracked so far, the cumulative count of delivered rows, and the
batches delivered successfully so far in order. -/
structure LoopState where
  dataBatch : List Row
  currentKeys : Finset (List String)
  totalCount : Nat
  sent : List (List Row)
deriving DecidableEq

/-- Key tracking at read time: when delete_orphans is set and key_columns is
nonempty, the stringified key tuple of the row just read is added to
current_keys. -/
def trackKeys (cfg : TableConfig) (ks : Finset (List String)) (r : Row) :
    Finset (List String) :=
  if cfg.delete_orphans && !cfg.key_columns.isEmpty then
    insert (keyTuple cfg.key_columns r) ks
  else ks

/-- The reader loop: each row is appended to data_batch and its key tracked;
when data_batch reaches the batch size it is sent, where send i is the outcome
of the i-th batch request; a rejected batch returns early and an exception
unwinds to the handler; after the loop the leftover rows are sent as a final
batch. -/
def uploadLoop (cfg : TableConfig) (bs : Nat) (send : Nat → SendRes) :
    List Row → LoopState → LoopState × UploadStatus
  | [], st =>
      if st.dataBatch.isEmpty then (st, .completed)
      else
        match send st.sent.length with
        | .ok =>
            ({ st with totalCount := st.totalCount + st.dataBatch.length,
                       sent := st.sent ++ [st.dataBatch], dataBatch := [] }, .completed)
        | .reject => (st, .abortedBatch)
        | .raise => (st, .caughtException)
  | r :: rs, st =>
      if bs ≤ (st.dataBatch ++ [r]).length then
        match send st.sent.length with
        | .ok =>
            uploadLoop cfg bs send rs
              ⟨[], trackKeys cfg st.currentKeys r,
                st.totalCount + (st.dataBatch ++ [r]).length,
                st.sent ++ [st.dataBatch ++ [r]]⟩
        | .reject =>
            ({ st with dataBatch := st.dataBatch ++ [r],
                       currentKeys := trackKeys cfg st.currentKeys r }, .abortedBatch)
        | .raise =>
            ({ st with dataBatch := st.dataBatch ++ [r],
                       currentKeys := trackKeys cfg st.currentKeys r }, .caughtException)
      else
        uploadLoop cfg bs send rs
          { st with dataBatch := st.dataBatch ++ [r],
                    currentKeys := trackKeys cfg st.currentKeys r }

/-- The batching performed by the reader loop, in isolation: rows accumulate
in acc and a chunk is emitted whenever acc reaches the batch size; the
leftover rows form the final chunk. -/
def makeBatches (bs : Nat) : List Row → List Row → List (List Row)
  | [], acc => if acc.isEmpty then [] else [acc]
  | r :: rs, acc =>
      if bs ≤ (acc ++ [r]).length then (acc ++ [r]) :: makeBatches bs rs []
      else makeBatches bs rs (acc ++ [r])

/-- Batch-level view of delivery: batches are sent in order starting at
request index i, stopping at the first non-ok response. Returns the
successfully delivered prefix and the loop status. -/
def deliverBatches (send : Nat → SendRes) :
    List (List Row) → Nat → List (List Row) × UploadStatus
  | [], _ => ([], .completed)
  | b :: rest, i =>
      match send i with
      | .ok =>
          ((b :: (deliverBatches send rest (i + 1)).1),
            (deliverBatches send rest (i + 1)).2)
      | .reject => ([], .abortedBatch)
      | .raise => ([], .caughtException)

/-- Sink semantics of one upserted row under resolution=merge-duplicates with
the declared on_conflict columns: the record with the same conflict-key tuple
is replaced when one exists, otherwise the row is inserted. With no conflict
columns declared the request degrades to a plain insert. -/
def upsertRow (ck : List String) (sink : List Row) (r : Row) : List Row :=
  if ck.isEmpty then sink ++ [r]
  else if sink.any (fun s => decide (keyTuple ck s = keyTuple ck r)) then
    sink.map (fun s => if keyTuple ck s = keyTuple ck r then r else s)
  else sink ++ [r]

/-- Sink contents after one delivered batch. -/
def applyBatch (ck : List String) (sink : List Row) (batch : List Row) : List Row :=
  batch.foldl (upsertRow ck)  sink

/-- Sink contents after a sequence of delivered batches. -/
def applySent (ck : List String) (sink : List Row) (sent : List (List Row)) : List Row :=
  sent.foldl (applyBatch ck) sink

/-- Sink semantics of one DELETE request whose query string is the equality
filter col=eq.v for every key column jointly: exactly the records whose
stringified key columns all equal the orphan tuple are removed. -/
def deleteByKey (keyCols : List String) (k : List String) (sink : List Row) : List Row :=
  sink.filter (fun r => !decide (keyTuple keyCols r = k))

/-- Outcome of one per-key DELETE request: a 2xx response, a non-2xx response
(reported for that key, the loop moves on), or a raised transport exception
that escapes the for loop to the except handler of delete_orphaned_records. -/
inductive DelRes where
  | ok
  | reject
  | raise
deriving DecidableEq, Repr

/-- The deletion loop of delete_orphaned_records: one DELETE per orphan key
tuple, in order. A 2xx response removes the key's records and is counted; a
non-2xx response is reported for that key only and the loop moves on; a
raised exception aborts the loop at once, leaving the remaining orphan keys
unattempted (the third component records that an exception escaped). -/
def deleteLoop (keyCols : List String) (delRes : List String → DelRes) :
    List (List String) → List Row → List Row × Nat × Bool
  | [], sink => (sink, 0, false)
  | k :: ks, sink =>
      match delRes k with
      | .ok =>
          ((deleteLoop keyCols delRes ks (deleteByKey keyCols k sink)).1,
            (deleteLoop keyCols delRes ks (deleteByKey keyCols k sink)).2.1 + 1,
            (deleteLoop keyCols delRes ks (deleteByKey keyCols k sink)).2.2)
      | .reject => deleteLoop keyCols delRes ks sink
      | .raise => (sink, 0, true)

/-- The orphan computation: the distinct key tuples currently stored at the
sink (the GET requests only the key columns) minus the delivered keys. -/
def orphanKeys (keyCols : List String) (currentKeys : Finset (List String))
    (sink : List Row) : List (List String) :=
  ((sink.map (keyTuple keyCols)).dedup).filter (fun k => !decide (k ∈ currentKeys))

/-- delete_orphaned_records: when the initial key-listing fetch fails the
function returns with no deletions; otherwise the stored-but-undelivered key
tuples are deleted by the loop, whose raised exceptions are swallowed by the
except handler of this function (the function still returns, the table's sync
continues). Returns the resulting sink contents and the number of keys
deleted (an empty orphan set returns early with count 0, which coincides with
running the loop on an empty list). -/
def deleteOrphanedRecords (keyCols : List String) (currentKeys : Finset (List String))
    (fetchOk : Bool) (delRes : List String → DelRes) (sink : List Row) :
    List Row × Nat :=
  if fetchOk then
    ((deleteLoop keyCols delRes (orphanKeys keyCols currentKeys sink) sink).1,
      (deleteLoop keyCols delRes (orphanKeys keyCols currentKeys sink) sink).2.1)
  else (sink, 0)

/-- Everything upload_csv_to_supabase leaves behind for one table: how the
loop ended, the cumulative delivered row count, the tracked keys, the
delivered batches, whether orphan deletion ran, the resulting sink contents,
the number of orphan keys deleted, and the set of files that still exist. -/
structure UploadResult where
  status : UploadStatus
  totalCount : Nat
  currentKeys : Finset (List String)
  sent : List (List Row)
  reconRan : Bool
  sinkAfter : List Row
  rowsDeleted : Nat
  files : Finset String
deriving DecidableEq

/-- The reconciliation step at the end of the try-block: orphan deletion runs
only when the reader loop completed and delete_orphans with a nonempty
key_columns is configured. -/
def reconStep (cfg : TableConfig) (fetchOk : Bool) (delRes : List String → DelRes)
    (status : UploadStatus) (keys : Finset (List String)) (sink1 : List Row) :
    List Row × Nat :=
  if decide (status = UploadStatus.completed) && cfg.delete_orphans
      && !cfg.key_columns.isEmpty then
    deleteOrphanedRecords cfg.key_columns keys fetchOk delRes sink1
  else (sink1, 0)

/-- Assembles the result of the upload stage from the reader-loop outcome:
the sent batches are applied to the sink as upserts, reconciliation runs only
on completion, and the finally-block removes the temporary file on every exit
path of the try (completion, early return on a rejected batch, and caught
exception). -/
def finishUpload (cfg : TableConfig) (fetchOk : Bool) (delRes : List String → DelRes)
    (filepath : String) (files : Finset String) (sink : List Row)
    (p : LoopState × UploadStatus) : UploadResult :=
  { status := p.2, totalCount := p.1.totalCount, currentKeys := p.1.currentKeys,
    sent := p.1.sent,
    reconRan := decide (p.2 = UploadStatus.completed) && cfg.delete_orphans
      && !cfg.key_columns.isEmpty,
    sinkAfter := (reconStep cfg fetchOk delRes p.2 p.1.currentKeys
      (applySent cfg.on_conflict sink p.1.sent)).1,
    rowsDeleted := (reconStep cfg fetchOk delRes p.2 p.1.currentKeys
      (applySent cfg.on_conflict sink p.1.sent)).2,
    files := files.erase filepath }

/-- upload_csv_to_supabase: returns at once when the file is missing (before
the try-block, so nothing is removed and nothing is sent); otherwise reads the
rows, delivers them in batches, reconciles orphans only when every batch
succeeded, and removes the temporary file in the finally-block. -/
def uploadCsvToSupabase (cfg : TableConfig) (bs : Nat) (send : Nat → SendRes)
    (fetchOk : Bool) (delRes : List String → DelRes) (filepath : String)
    (files : Finset String) (rows : List Row) (sink : List Row) : UploadResult :=
  if filepath ∈ files then
    finishUpload cfg fetchOk delRes filepath files sink
      (uploadLoop cfg bs send rows ⟨[], ∅, 0, []⟩)
  else
    { status := .missingFile, totalCount := 0, currentKeys := ∅, sent := [],
      reconRan := false, sinkAfter := sink, rowsDeleted := 0, files := files }

/-- External collaborators of one run, per table name: the extraction result
(none models extract_db_to_csv catching a source error and returning None),
the per-batch sink responses, the key-listing fetch outcome, the per-key
delete outcomes, and the prior sink contents of the table. -/
structure SyncEnv where
  extracted : String → Option (List Row)
  send : String → Nat → SendRes
  fetchOk : String → Bool
  delRes : String → List String → DelRes
  sink : String → List Row

/-- Report of one table within a run. -/
structure TableReport where
  name : String
  extractFailed : Bool
  upload : Option UploadResult
deriving DecidableEq

/-- Path of the temporary export file of a table. -/
def tempPath (name : String) : String := "/tmp/" ++ name ++ "_export.csv"

/-- One iteration of run_all_syncs: extract, and when extraction produced a
file (which then exists on disk), upload; a failed extraction skips the
upload stage for this table only. -/
def runTable (env : SyncEnv) (bs : Nat) (name : String) (cfg : TableConfig) :
    TableReport :=
  match env.extracted name with
  | none => { name := name, extractFailed := true, upload := none }
  | some rows =>
      { name := name, extractFailed := false,
        upload := some (uploadCsvToSupabase cfg bs (env.send name) (env.fetchOk name)
          (env.delRes name) (tempPath name) {tempPath name} rows (env.sink name)) }

/-- run_all_syncs: processes the table specs sequentially in declaration
order. -/
def runAllSyncs (env : SyncEnv) (bs : Nat) :
    List (String × TableConfig) → List TableReport
  | [] => []
  | (n, c) :: rest => runTable env bs n c :: runAllSyncs env bs rest

/-- A table ended in a failed state: its extraction failed, or its upload
stage did not run to completion. -/
def tableFailed (t : TableReport) : Bool :=
  t.extractFailed ||
    (match t.upload with
     | some u => !decide (u.status = UploadStatus.completed)
     | none => true)

/-- The entry-point guard: with the environment variables missing only an
error line is printed; otherwise run_all_syncs is called. The script never
calls sys.exit and every failure inside the run is caught, so the process
exit code is 0 on both paths. Returns the reports and the exit code. -/
def mainRun (envVarsOk : Bool) (env : SyncEnv) (bs : Nat)
    (specs : List (String × TableConfig)) : List TableReport × Nat :=
  if envVarsOk then (runAllSyncs env bs specs, 0) else ([], 0)

/-- Boolean check that every chunk has exactly the given length. -/
def allLen (n : Nat) (l : List (List Row)) : Bool :=
  l.all (fun b => decide (b.length = n))

/-- Boolean check that every chunk is nonempty and no longer than the given
bound. -/
def allLenBetween (n : Nat) (l : List (List Row)) : Bool :=
  l.all (fun b => decide (1 ≤ b.length) && decide (b.length ≤ n))

/-- A delete oracle under which every DELETE request succeeds. -/
def delAlwaysOk : List String → DelRes := fun _ => DelRes.ok

/-- A send oracle under which every batch request succeeds. -/
def sendAllOk : Nat → SendRes := fun _ => SendRes.ok

/-- A nonempty list is not reported empty by isEmpty. -/
lemma isEmpty_false_of_ne_nil {α : Type} {l : List α} (h : l ≠ []) :
    l.isEmpty = false := by
  cases l with
  | nil => exact absurd rfl h
  | cons a t => rfl

/-- Concatenating the chunks produced by the batching loop restores the
accumulator followed by the remaining rows. -/
lemma makeBatches_join (bs : Nat) :
    ∀ (rows acc : List Row), acc.length < bs →
      (makeBatches bs rows acc).flatten = acc ++ rows := by
  intro rows
  induction rows with
  | nil =>
      intro acc hacc
      by_cases hemp : acc.isEmpty
      · have : acc = [] := List.isEmpty_iff.mp hemp
        simp [makeBatches, hemp, this]
      · simp [makeBatches, hemp]
  | cons r rs ih =>
      intro acc hacc
      by_cases hfl : bs ≤ (acc ++ [r]).length
      · have hfl2 : bs ≤ acc.length + 1 := by simpa using hfl
        have h0 : (0 : Nat) < bs := Nat.lt_of_le_of_lt (Nat.zero_le _) hacc
        have := ih [] h0
        simp [makeBatches, hfl2, this]
      · have hfl2 : ¬ bs ≤ acc.length + 1 := by simpa using hfl
        have hlt : (acc ++ [r]).length < bs := Nat.lt_of_not_le hfl
        have := ih (acc ++ [r]) hlt
        simp [makeBatches, hfl2, this]

/-- Every chunk produced by the batching loop except the last has exactly the
batch size. -/
lemma makeBatches_dropLast (bs : Nat) :
    ∀ (rows acc : List Row), acc.length < bs →
      ∀ b ∈ (makeBatches bs rows acc).dropLast, b.length = bs := by
  intro rows
  induction rows with
  | nil =>
      intro acc hacc b hb
      by_cases hemp : acc.isEmpty
      · simp [makeBatches, hemp] at hb
      · simp [makeBatches, hemp] at hb
  | cons r rs ih =>
      intro acc hacc b hb
      simp only [makeBatches] at hb
      by_cases hfl : bs ≤ (acc ++ [r]).length
      · rw [if_pos hfl] at hb
        have hfl2 : bs ≤ acc.length + 1 := by simpa using hfl
        have h0 : (0 : Nat) < bs := Nat.lt_of_le_of_lt (Nat.zero_le _) hacc
        cases hM : makeBatches bs rs [] with
        | nil => rw [hM] at hb; simp at hb
        | cons m ms =>
            rw [hM, List.dropLast_cons₂] at hb
            rcases List.mem_cons.mp hb with hb1 | hb2
            · rw [hb1]; simp; omega
            · exact ih [] h0 b (by rw [hM]; exact hb2)
      · rw [if_neg hfl] at hb
        exact ih (acc ++ [r]) (Nat.lt_of_not_le hfl) b hb

/-- Every chunk produced by the batching loop is nonempty and no longer than
the batch size. -/
lemma makeBatches_len (bs : Nat) :
    ∀ (rows acc : List Row), acc.length < bs →
      ∀ b ∈ makeBatches bs rows acc, 1 ≤ b.length ∧ b.length ≤ bs := by
  intro rows
  induction rows with
  | nil =>
      intro acc hacc b hb
      by_cases hemp : acc.isEmpty
      · simp [makeBatches, hemp] at hb
      · simp [makeBatches, hemp] at hb
        rw [hb]
        have : acc ≠ [] := fun h => by simp [h] at hemp
        constructor
        · exact Nat.one_le_iff_ne_zero.mpr (by simpa using this)
        · exact Nat.le_of_lt hacc
  | cons r rs ih =>
      intro acc hacc b hb
      simp only [makeBatches] at hb
      by_cases hfl : bs ≤ (acc ++ [r]).length
      · rw [if_pos hfl] at hb
        have hfl2 : bs ≤ acc.length + 1 := by simpa using hfl
        have h0 : (0 : Nat) < bs := Nat.lt_of_le_of_lt (Nat.zero_le _) hacc
        rcases List.mem_cons.mp hb with hb1 | hb2
        · rw [hb1]; simp; omega
        · exact ih [] h0 b hb2
      · rw [if_neg hfl] at hb
        exact ih (acc ++ [r]) (Nat.lt_of_not_le hfl) b hb

/-- The batching loop emits at least one chunk when it starts from a nonempty
row list or a nonempty accumulator. -/
lemma makeBatches_ne_nil (bs : Nat) :
    ∀ (rows acc : List Row), rows ≠ [] ∨ acc ≠ [] → makeBatches bs rows acc ≠ [] := by
  intro rows
  induction rows with
  | nil =>
      intro acc h
      rcases h with h | h
      · exact absurd rfl h
      · simp [makeBatches, isEmpty_false_of_ne_nil h]
  | cons r rs ih =>
      intro acc h
      simp only [makeBatches]
      by_cases hfl : bs ≤ (acc ++ [r]).length
      · rw [if_pos hfl]; simp
      · rw [if_neg hfl]
        exact ih (acc ++ [r]) (Or.inr (by simp))

/-- When every request succeeds, batch-level delivery delivers everything and
completes. -/
lemma deliverBatches_all_ok (send : Nat → SendRes) (hok : ∀ i, send i = SendRes.ok) :
    ∀ (l : List (List Row)) (i : Nat), deliverBatches send l i = (l, UploadStatus.completed) := by
  intro l
  induction l with
  | nil => intro i; rfl
  | cons b rest ih =>
      intro i
      simp [deliverBatches, hok i, ih (i + 1)]

/-- When the requests before index k succeed and request k is rejected while
batch k exists, batch-level delivery delivers exactly the first k - i batches
and aborts. -/
lemma deliverBatches_reject (send : Nat → SendRes) (k : Nat)
    (hok : ∀ i, i < k → send i = SendRes.ok) (hrej : send k = SendRes.reject) :
    ∀ (l : List (List Row)) (i : Nat), i ≤ k → k - i < l.length →
      deliverBatches send l i = (l.take (k - i), UploadStatus.abortedBatch) := by
  intro l
  induction l with
  | nil => intro i hik hlen; simp at hlen
  | cons b rest ih =>
      intro i hik hlen
      by_cases hie : i = k
      · subst hie
        simp [deliverBatches, hrej]
      · have hilt : i < k := Nat.lt_of_le_of_ne hik hie
        have hki : k - i = (k - (i + 1)) + 1 := by omega
        have hlen2 : k - (i + 1) < rest.length := by simp at hlen; omega
        rw [List.length_cons] at hlen
        simp [deliverBatches, hok i hilt, ih (i + 1) hilt hlen2, hki]

/-- The reader loop delivers exactly the chunks of the batching loop, in
order, up to the first failed request, and ends with the status of that
batch-level delivery. -/
lemma uploadLoop_sent_status (cfg : TableConfig) (bs : Nat) (send : Nat → SendRes) :
    ∀ (rows : List Row) (st : LoopState), st.dataBatch.length < bs →
      (uploadLoop cfg bs send rows st).1.sent =
        st.sent ++ (deliverBatches send (makeBatches bs rows st.dataBatch) st.sent.length).1 ∧
      (uploadLoop cfg bs send rows st).2 =
        (deliverBatches send (makeBatches bs rows st.dataBatch) st.sent.length).2 := by
  intro rows
  induction rows with
  | nil =>
      intro st hst
      by_cases hemp : st.dataBatch.isEmpty
      · simp [uploadLoop, makeBatches, hemp, deliverBatches]
      · cases hsend : send st.sent.length with
        | ok => simp [uploadLoop, makeBatches, hemp, deliverBatches, hsend]
        | reject => simp [uploadLoop, makeBatches, hemp, deliverBatches, hsend]
        | raise => simp [uploadLoop, makeBatches, hemp, deliverBatches, hsend]
  | cons r rs ih =>
      intro st hst
      have h0 : (0 : Nat) < bs := Nat.lt_of_le_of_lt (Nat.zero_le _) hst
      by_cases hfl : bs ≤ (st.dataBatch ++ [r]).length
      · have hfl2 : bs ≤ st.dataBatch.length + 1 := by simpa using hfl
        cases hsend : send st.sent.length with
        | ok =>
            have ih2 := ih ⟨[], trackKeys cfg st.currentKeys r,
              st.totalCount + (st.dataBatch ++ [r]).length,
              st.sent ++ [st.dataBatch ++ [r]]⟩ (by simpa using h0)
            simp at ih2
            simp [uploadLoop, makeBatches, hfl2, hsend, deliverBatches, ih2.1, ih2.2]
        | reject => simp [uploadLoop, makeBatches, hfl2, hsend, deliverBatches]
        | raise => simp [uploadLoop, makeBatches, hfl2, hsend, deliverBatches]
      · have hfl2 : ¬ bs ≤ st.dataBatch.length + 1 := by simpa using hfl
        have hlt : (st.dataBatch ++ [r]).length < bs := Nat.lt_of_not_le hfl
        have ih2 := ih ⟨st.dataBatch ++ [r], trackKeys cfg st.currentKeys r,
          st.totalCount, st.sent⟩ (by simpa using hlt)
        simp at ih2
        simp [uploadLoop, makeBatches, hfl2, ih2.1, ih2.2]

/-- When the reader loop completes, every row was read, so current_keys holds
the tracked key of every row. -/
lemma uploadLoop_completed_keys (cfg : TableConfig) (bs : Nat) (send : Nat → SendRes) :
    ∀ (rows : List Row) (st : LoopState),
      (uploadLoop cfg bs send rows st).2 = UploadStatus.completed →
      (uploadLoop cfg bs send rows st).1.currentKeys =
        rows.foldl (trackKeys cfg) st.currentKeys := by
  intro rows
  induction rows with
  | nil =>
      intro st hc
      by_cases hemp : st.dataBatch.isEmpty
      · simp [uploadLoop, hemp]
      · cases hsend : send st.sent.length with
        | ok => simp [uploadLoop, hemp, hsend]
        | reject => simp [uploadLoop, hemp, hsend] at hc
        | raise => simp [uploadLoop, hemp, hsend] at hc
  | cons r rs ih =>
      intro st hc
      by_cases hfl : bs ≤ (st.dataBatch ++ [r]).length
      · have hfl2 : bs ≤ st.dataBatch.length + 1 := by simpa using hfl
        cases hsend : send st.sent.length with
        | ok =>
            simp only [uploadLoop, if_pos hfl, hsend] at hc ⊢
            rw [List.foldl_cons]
            exact ih _ hc
        | reject => simp [uploadLoop, hfl2, hsend] at hc
        | raise => simp [uploadLoop, hfl2, hsend] at hc
      · simp only [uploadLoop, if_neg hfl] at hc ⊢
        rw [List.foldl_cons]
        exact ih _ hc

/-- Folding the key tracker over a row list adds exactly the stringified key
tuples of the rows, when delete_orphans is set and key_columns is nonempty. -/
lemma foldl_trackKeys (cfg : TableConfig) (hdo : cfg.delete_orphans = true)
    (hkc : cfg.key_columns.isEmpty = false) :
    ∀ (rows : List Row) (s : Finset (List String)),
      rows.foldl (trackKeys cfg) s =
        s ∪ (rows.map (keyTuple cfg.key_columns)).toFinset := by
  intro rows
  induction rows with
  | nil => intro s; simp
  | cons r rs ih =>
      intro s
      rw [List.foldl_cons, ih]
      have ht : trackKeys cfg s r = insert (keyTuple cfg.key_columns r) s := by
        simp [trackKeys, hdo, hkc]
      rw [ht]
      ext k
      simp [Finset.mem_union, Finset.mem_insert]
      try tauto

/-- The orphan keys whose DELETE returns 2xx. -/
def okKeys (delRes : List String → DelRes) (ks : List (List String)) :
    List (List String) :=
  ks.filter (fun k => decide (delRes k = DelRes.ok))

/-- As long as no DELETE of the key list raises, a record survives the
deletion loop iff it was in the sink and its full key tuple is not a
to-be-deleted key whose DELETE succeeded: under that proviso the fate of each
record depends only on its own joint key tuple. -/
lemma deleteLoop_mem (keyCols : List String) (delRes : List String → DelRes) :
    ∀ (ks : List (List String)) (sink : List Row) (r : Row),
      (∀ k ∈ ks, delRes k ≠ DelRes.raise) →
      (r ∈ (deleteLoop keyCols delRes ks sink).1 ↔
        r ∈ sink ∧ ¬(keyTuple keyCols r ∈ ks ∧ delRes (keyTuple keyCols r) = DelRes.ok)) := by
  intro ks
  induction ks with
  | nil => intro sink r hnr; simp [deleteLoop]
  | cons k ks ih =>
      intro sink r hnr
      have htl : ∀ x ∈ ks, delRes x ≠ DelRes.raise :=
        fun x hx => hnr x (List.mem_cons_of_mem _ hx)
      cases hd : delRes k with
      | ok =>
          simp only [deleteLoop, hd]
          rw [ih _ _ htl]
          have hdel : r ∈ deleteByKey keyCols k sink ↔
              r ∈ sink ∧ ¬ keyTuple keyCols r = k := by
            simp [deleteByKey, List.mem_filter]
          rw [hdel]
          by_cases htk : keyTuple keyCols r = k
          · simp [htk, hd]
          · simp [htk]
      | reject =>
          simp only [deleteLoop, hd]
          rw [ih _ _ htl]
          by_cases htk : keyTuple keyCols r = k
          · simp [htk, hd]
          · simp [htk]
      | raise => exact absurd hd (hnr k (List.mem_cons_self _ _))

/-- As long as no DELETE of the key list raises, the deletion loop counts
exactly the keys whose DELETE succeeded. -/
lemma deleteLoop_count (keyCols : List String) (delRes : List String → DelRes) :
    ∀ (ks : List (List String)) (sink : List Row),
      (∀ k ∈ ks, delRes k ≠ DelRes.raise) →
      (deleteLoop keyCols delRes ks sink).2.1 = (okKeys delRes ks).length := by
  intro ks
  induction ks with
  | nil => intro sink hnr; simp [deleteLoop, okKeys]
  | cons k ks ih =>
      intro sink hnr
      have htl : ∀ x ∈ ks, delRes x ≠ DelRes.raise :=
        fun x hx => hnr x (List.mem_cons_of_mem _ hx)
      cases hd : delRes k with
      | ok =>
          simp only [deleteLoop, hd]
          simp [okKeys, List.filter_cons, hd, ih _ htl]
      | reject =>
          simp only [deleteLoop, hd]
          simp [okKeys, List.filter_cons, hd, ih _ htl]
      | raise => exact absurd hd (hnr k (List.mem_cons_self _ _))

/-- A DELETE that raises aborts the deletion loop: with the keys before it
raise-free, the result is exactly that of processing only the earlier keys,
the exception flag is set, and the keys after the raising one are never
attempted. -/
lemma deleteLoop_raise_aborts (keyCols : List String) (delRes : List String → DelRes)
    (k : List String) (hk : delRes k = DelRes.raise) :
    ∀ (ks1 ks2 : List (List String)) (sink : List Row),
      (∀ k1 ∈ ks1, delRes k1 ≠ DelRes.raise) →
      deleteLoop keyCols delRes (ks1 ++ k :: ks2) sink =
        ((deleteLoop keyCols delRes ks1 sink).1,
          (deleteLoop keyCols delRes ks1 sink).2.1, true) := by
  intro ks1
  induction ks1 with
  | nil => intro ks2 sink hnr; simp [deleteLoop, hk]
  | cons k1 ks1 ih =>
      intro ks2 sink hnr
      have h1 : delRes k1 ≠ DelRes.raise := hnr k1 (List.mem_cons_self _ _)
      have htl : ∀ x ∈ ks1, delRes x ≠ DelRes.raise :=
        fun x hx => hnr x (List.mem_cons_of_mem _ hx)
      cases hd : delRes k1 with
      | ok =>
          simp only [List.cons_append, deleteLoop, hd]
          simp [ih ks2 (deleteByKey keyCols k1 sink) htl]
      | reject =>
          simp only [List.cons_append, deleteLoop, hd]
          exact ih ks2 sink htl
      | raise => exact absurd hd h1

/-- The to-be-deleted key list holds exactly the stored key tuples that were
not delivered. -/
lemma mem_orphanKeys (keyCols : List String) (cks : Finset (List String))
    (sink : List Row) (k : List String) :
    k ∈ orphanKeys keyCols cks sink ↔
      k ∈ sink.map (keyTuple keyCols) ∧ k ∉ cks := by
  simp [orphanKeys, List.mem_filter, List.mem_dedup]

/-- With a successful fetch, the sink the reconciler leaves behind is the
loop's sink. -/
lemma deleteOrphanedRecords_fst (keyCols : List String) (cks : Finset (List String))
    (delRes : List String → DelRes) (sink : List Row) :
    (deleteOrphanedRecords keyCols cks true delRes sink).1 =
      (deleteLoop keyCols delRes (orphanKeys keyCols cks sink) sink).1 := rfl

/-- With a successful fetch, the count the reconciler reports is the loop's
count. -/
lemma deleteOrphanedRecords_snd (keyCols : List String) (cks : Finset (List String))
    (delRes : List String → DelRes) (sink : List Row) :
    (deleteOrphanedRecords keyCols cks true delRes sink).2 =
      (deleteLoop keyCols delRes (orphanKeys keyCols cks sink) sink).2.1 := rfl

/-- A record survives the reconciler (with a successful key-listing fetch and
no DELETE raising) iff its full joint key tuple was delivered in this run or
its own DELETE was not a 2xx; under that proviso deletion never depends on
any other record's key tuple. -/
lemma deleteOrphanedRecords_mem (keyCols : List String) (cks : Finset (List String))
    (delRes : List String → DelRes) (sink : List Row) (r : Row) (hr : r ∈ sink)
    (hnr : ∀ k ∈ orphanKeys keyCols cks sink, delRes k ≠ DelRes.raise) :
    r ∈ (deleteOrphanedRecords keyCols cks true delRes sink).1 ↔
      (keyTuple keyCols r ∈ cks ∨ delRes (keyTuple keyCols r) ≠ DelRes.ok) := by
  rw [deleteOrphanedRecords_fst, deleteLoop_mem keyCols delRes _ sink r hnr]
  have hmap : keyTuple keyCols r ∈ sink.map (keyTuple keyCols) :=
    List.mem_map_of_mem (keyTuple keyCols) hr
  rw [mem_orphanKeys]
  cases hdo : delRes (keyTuple keyCols r) with
  | ok =>
      by_cases hc : keyTuple keyCols r ∈ cks
      · simp [hmap, hr, hdo, hc]
      · simp [hmap, hr, hdo, hc]
  | reject => simp [hmap, hr, hdo]
  | raise =>
      by_cases hc : keyTuple keyCols r ∈ cks
      · simp [hmap, hr, hdo, hc]
      · exact absurd hdo (hnr _ ((mem_orphanKeys keyCols cks sink _).mpr ⟨hmap, hc⟩))

/-- With no DELETE raising, the reconciler reports exactly the number of
orphan keys whose DELETE succeeded. -/
lemma deleteOrphanedRecords_count (keyCols : List String) (cks : Finset (List String))
    (delRes : List String → DelRes) (sink : List Row)
    (hnr : ∀ k ∈ orphanKeys keyCols cks sink, delRes k ≠ DelRes.raise) :
    (deleteOrphanedRecords keyCols cks true delRes sink).2 =
      (okKeys delRes (orphanKeys keyCols cks sink)).length := by
  rw [deleteOrphanedRecords_snd, deleteLoop_count keyCols delRes _ sink hnr]

/-- run_all_syncs produces, in declaration order, exactly the report of each
spec processed on its own. -/
lemma runAllSyncs_eq_map (env : SyncEnv) (bs : Nat) :
    ∀ specs : List (String × TableConfig),
      runAllSyncs env bs specs = specs.map (fun p => runTable env bs p.1 p.2) := by
  intro specs
  induction specs with
  | nil => rfl
  | cons p rest ih =>
      cases p with
      | mk n c => simp [runAllSyncs, ih]

/-- Fixture: temporary file path used by the witnesses. -/
def wFp : String := "t"

/-- Fixture: a users-style row keyed by user_id. -/
def wRow (n : Int) : Row := [("user_id", Value.vint n)]

/-- Fixture: a users-style table configuration with orphan deletion enabled. -/
def wCfg : TableConfig := ⟨["user_id"], true, ["user_id"]⟩

/-- Fixture: four source rows. -/
def wRows4 : List Row := [wRow 1, wRow 2, wRow 3, wRow 4]

/-- Fixture: a sink whose first batch request succeeds and second is rejected. -/
def wSend : Nat → SendRes := fun i => if i = 0 then SendRes.ok else SendRes.reject

/-- Fixture: composite key columns. -/
def wKc2 : List String := ["a", "b"]

/-- Fixture: a composite-key record whose key tuple was delivered. -/
def wRecDelivered : Row := [("a", Value.vint 1), ("b", Value.vint 4)]

/-- Fixture: a composite-key orphan record agreeing with the delivered record
on its first key column only. -/
def wRecOrphan : Row := [("a", Value.vint 1), ("b", Value.vint 2)]

/-- Fixture: a composite-key sink holding the orphan and the delivered record. -/
def wSinkAB : List Row := [wRecOrphan, wRecDelivered]

/-- Fixture: the delivered key set of the composite-key run. -/
def wCksAB : Finset (List String) := {["1", "4"]}

/-- Fixture: a sink with two records keyed 1 and 2. -/
def wSink2 : List Row := [wRow 1, wRow 2]

/-- Fixture: a delete oracle whose DELETE of key tuple 1 gets a non-2xx
response while every other DELETE succeeds. -/
def wDelRejectOn1 : List String → DelRes :=
  fun k => if k = ["1"] then DelRes.reject else DelRes.ok

/-- Fixture: a delete oracle whose DELETE of key tuple 1 raises a transport
exception while every other DELETE succeeds. -/
def wDelRaiseOn1 : List String → DelRes :=
  fun k => if k = ["1"] then DelRes.raise else DelRes.ok

/-- Fixture: table names. -/
def wUsers : String := "users"

/-- Fixture: second table name. -/
def wCoupons : String := "coupons"

/-- Fixture: an environment where every extraction fails. -/
def wEnvFail : SyncEnv :=
  ⟨fun _ => none, fun _ _ => SendRes.ok, fun _ => true, fun _ _ => DelRes.ok, fun _ => []⟩

/-- Fixture: an environment where the users extraction fails and every other
table extracts an empty row list. -/
def wEnvMixed : SyncEnv :=
  ⟨fun n => if n = wUsers then none else some [], fun _ _ => SendRes.ok,
    fun _ => true, fun _ _ => DelRes.ok, fun _ => []⟩

/-- Fixture: a one-table spec list. -/
def wSpecs1 : List (String × TableConfig) := [(wUsers, wCfg)]

/-- Fixture: the report of a table whose extraction failed. -/
def wRepFail : TableReport := ⟨wUsers, true, none⟩

/-- C1: with delete_orphans enabled the reconciler fetches the stored key
tuples (key columns only), computes orphans as stored minus delivered, and
deletes by an equality condition over all key columns jointly, so a record
survives iff its full joint key tuple was delivered: a record whose key
columns only partially match an orphan tuple is never deleted. -/
theorem reconciler_deletes_exactly_full_key_orphans
    (keyCols : List String) (cks : Finset (List String)) (sink : List Row)
    (r : Row) (hr : r ∈ sink) :
    r ∈ (deleteOrphanedRecords keyCols cks true delAlwaysOk sink).1 ↔
      keyTuple keyCols r ∈ cks := by
  rw [deleteOrphanedRecords_mem keyCols cks delAlwaysOk sink r hr
    (fun k hk h => DelRes.noConfusion h)]
  simp [delAlwaysOk]

theorem reconciler_deletes_exactly_full_key_orphans_witness :
    wRecDelivered ∈ wSinkAB ∧
    (wRecDelivered ∈ (deleteOrphanedRecords wKc2 wCksAB true delAlwaysOk wSinkAB).1 ↔
      keyTuple wKc2 wRecDelivered ∈ wCksAB) :=
  ⟨by decide, reconciler_deletes_exactly_full_key_orphans wKc2 wCksAB wSinkAB
    wRecDelivered (by decide)⟩

/-- C3: for every nonempty row list and batch size of at least 1, the batches
concatenate back to the original rows in order, every batch except possibly
the last has exactly the batch size, and every batch (the last included) has
between 1 and batch size rows. -/
theorem batching_concat_and_sizes (bs : Nat) (rows : List Row)
    (hbs : 1 ≤ bs) (hrows : rows ≠ []) :
    (makeBatches bs rows []).flatten = rows ∧
    makeBatches bs rows [] ≠ [] ∧
    allLen bs ((makeBatches bs rows []).dropLast) = true ∧
    allLenBetween bs (makeBatches bs rows []) = true := by
  have hacc : ([] : List Row).length < bs := by simpa using hbs
  refine ⟨?_, ?_, ?_, ?_⟩
  · simpa using makeBatches_join bs rows [] hacc
  · exact makeBatches_ne_nil bs rows [] (Or.inl hrows)
  · rw [allLen, List.all_eq_true]
    intro b hb
    simpa using makeBatches_dropLast bs rows [] hacc b hb
  · rw [allLenBetween, List.all_eq_true]
    intro b hb
    have hlb := makeBatches_len bs rows [] hacc b hb
    simp [hlb.1, hlb.2]

theorem batching_concat_and_sizes_witness :
    ((1 : Nat) ≤ 2 ∧ wRows4 ≠ []) ∧
    ((makeBatches 2 wRows4 []).flatten = wRows4 ∧
      makeBatches 2 wRows4 [] ≠ [] ∧
      allLen 2 ((makeBatches 2 wRows4 []).dropLast) = true ∧
      allLenBetween 2 (makeBatches 2 wRows4 []) = true) :=
  ⟨⟨by decide, by decide⟩, batching_concat_and_sizes 2 wRows4 (by decide) (by decide)⟩

/-- C5 counterexample: a batch answered with status 500 (SinkUnavailable
class) is treated as fatal after exactly one request, with no retry and no
backoff: its handling is identical to a 400 rejection, contradicting the
claim that 5xx failures are retried with exponential backoff and that only
4xx failures abort immediately. -/
theorem send_batch_500_aborts_without_retry :
    sendBatch (constResponder 500) = (false, 1) ∧
    sendBatch (constResponder 500) = sendBatch (constResponder 400) ∧
    statusOk 500 = false ∧ statusOk 400 = false := by decide

/-- C5 amended: every batch delivery issues exactly one request, succeeds iff
that single response is 2xx, and never consults any later response: any
non-2xx outcome, 4xx- and 5xx-equivalent alike, is fatal for the table
immediately, with no retry and no backoff. -/
theorem send_batch_single_attempt_fatal (statusOf : Nat → Nat) :
    (sendBatch statusOf).2 = 1 ∧
    (sendBatch statusOf).1 = statusOk (statusOf 0) ∧
    sendBatch statusOf = sendBatch (constResponder (statusOf 0)) :=
  ⟨rfl, rfl, rfl⟩

/-- C6 counterexample: key tuple 2 is an orphan whose own DELETE would return
2xx, yet after the DELETE of key tuple 1 raises a transport exception the
loop unwinds to the except handler of delete_orphaned_records: nothing is
deleted and no further deletion is attempted, so a failed deletion of one key
does prevent deletion attempts for the remaining orphan keys. -/
theorem orphan_delete_exception_aborts_rest :
    keyTuple ["user_id"] (wRow 2) ∈ orphanKeys ["user_id"] ∅ wSink2 ∧
    wDelRaiseOn1 (keyTuple ["user_id"] (wRow 2)) = DelRes.ok ∧
    (deleteOrphanedRecords ["user_id"] ∅ true wDelRaiseOn1 wSink2).1 = wSink2 ∧
    (deleteOrphanedRecords ["user_id"] ∅ true wDelRaiseOn1 wSink2).2 = 0 := by
  decide

/-- C6 amended: orphan deletions whose failures are non-2xx responses are
handled independently: as long as no DELETE raises a transport exception, a
record is removed iff its own key tuple is an orphan whose own DELETE
succeeded, regardless of rejected deletions of other keys, and successful
deletions are counted and reported while the table's sync continues; a DELETE
that raises instead aborts the remaining orphan deletions via the except
handler of delete_orphaned_records (still without failing the table). -/
theorem orphan_deletions_reject_independent_and_counted
    (keyCols : List String) (cks : Finset (List String)) (delRes : List String → DelRes)
    (sink : List Row) (r : Row) (hr : r ∈ sink)
    (hnr : ∀ k ∈ orphanKeys keyCols cks sink, delRes k ≠ DelRes.raise) :
    (r ∈ (deleteOrphanedRecords keyCols cks true delRes sink).1 ↔
      (keyTuple keyCols r ∈ cks ∨ delRes (keyTuple keyCols r) ≠ DelRes.ok)) ∧
    (deleteOrphanedRecords keyCols cks true delRes sink).2 =
      (okKeys delRes (orphanKeys keyCols cks sink)).length :=
  ⟨deleteOrphanedRecords_mem keyCols cks delRes sink r hr hnr,
    deleteOrphanedRecords_count keyCols cks delRes sink hnr⟩

theorem orphan_deletions_reject_independent_and_counted_witness :
    wRow 1 ∈ wSink2 ∧
    ((wRow 1 ∈ (deleteOrphanedRecords ["user_id"] ∅ true wDelRejectOn1 wSink2).1 ↔
      (keyTuple ["user_id"] (wRow 1) ∈ (∅ : Finset (List String)) ∨
        wDelRejectOn1 (keyTuple ["user_id"] (wRow 1)) ≠ DelRes.ok)) ∧
    (deleteOrphanedRecords ["user_id"] ∅ true wDelRejectOn1 wSink2).2 =
      (okKeys wDelRejectOn1 (orphanKeys ["user_id"] ∅ wSink2)).length) :=
  ⟨by decide, orphan_deletions_reject_independent_and_counted ["user_id"] ∅ wDelRejectOn1
    wSink2 (wRow 1) (by decide) (by decide)⟩

/-- C2: batch delivery is sequential and stops at the first rejected batch:
exactly the batches before the failure are sent, they stay applied at the
sink with no rollback, the upload aborts, and orphan reconciliation does not
run for the table. -/
theorem upload_stops_at_first_batch_failure
    (cfg : TableConfig) (bs : Nat) (send : Nat → SendRes) (fetchOk : Bool)
    (delRes : List String → DelRes) (fp : String) (files : Finset String)
    (rows : List Row) (sink : List Row) (k : Nat)
    (hbs : 1 ≤ bs) (hfp : fp ∈ files)
    (hok : ∀ i, i < k → send i = SendRes.ok)
    (hrej : send k = SendRes.reject)
    (hk : k < (makeBatches bs rows []).length) :
    (uploadCsvToSupabase cfg bs send fetchOk delRes fp files rows sink).sent =
        (makeBatches bs rows []).take k ∧
    (uploadCsvToSupabase cfg bs send fetchOk delRes fp files rows sink).status =
        UploadStatus.abortedBatch ∧
    (uploadCsvToSupabase cfg bs send fetchOk delRes fp files rows sink).reconRan = false ∧
    (uploadCsvToSupabase cfg bs send fetchOk delRes fp files rows sink).sinkAfter =
        applySent cfg.on_conflict sink ((makeBatches bs rows []).take k) ∧
    (uploadCsvToSupabase cfg bs send fetchOk delRes fp files rows sink).rowsDeleted = 0 := by
  obtain ⟨h1, h2⟩ := uploadLoop_sent_status cfg bs send rows ⟨[], ∅, 0, []⟩ (by simpa using hbs)
  simp only [List.nil_append, List.length_nil] at h1 h2
  have hdel := deliverBatches_reject send k hok hrej (makeBatches bs rows []) 0
    (Nat.zero_le k) (by simpa using hk)
  simp only [Nat.sub_zero] at hdel
  rw [hdel] at h1 h2
  refine ⟨?_, ?_, ?_, ?_, ?_⟩ <;>
    rw [uploadCsvToSupabase, if_pos hfp] <;>
    simp [finishUpload, reconStep, h1, h2]

theorem upload_stops_at_first_batch_failure_witness :
    (wSend 1 = SendRes.reject ∧ 1 < (makeBatches 2 wRows4 []).length ∧
      wFp ∈ ({wFp} : Finset String)) ∧
    ((uploadCsvToSupabase wCfg 2 wSend true delAlwaysOk wFp {wFp} wRows4 []).sent =
        (makeBatches 2 wRows4 []).take 1 ∧
      (uploadCsvToSupabase wCfg 2 wSend true delAlwaysOk wFp {wFp} wRows4 []).status =
        UploadStatus.abortedBatch ∧
      (uploadCsvToSupabase wCfg 2 wSend true delAlwaysOk wFp {wFp} wRows4 []).reconRan = false ∧
      (uploadCsvToSupabase wCfg 2 wSend true delAlwaysOk wFp {wFp} wRows4 []).sinkAfter =
        applySent wCfg.on_conflict [] ((makeBatches 2 wRows4 []).take 1) ∧
      (uploadCsvToSupabase wCfg 2 wSend true delAlwaysOk wFp {wFp} wRows4 []).rowsDeleted = 0) :=
  ⟨⟨by decide, by decide, by decide⟩,
    upload_stops_at_first_batch_failure wCfg 2 wSend true delAlwaysOk wFp {wFp} wRows4 [] 1
      (by decide) (by decide) (by decide) (by decide) (by decide)⟩

/-- C4: a table with delete_orphans enabled whose source query returns zero
rows delivers nothing, tracks an empty key set, still runs reconciliation,
and with every DELETE succeeding empties the sink entirely, deleting all its
distinct stored keys; the empty-source case is not special-cased away. -/
theorem empty_source_deletes_all_sink_records
    (cfg : TableConfig) (bs : Nat) (send : Nat → SendRes) (fp : String)
    (files : Finset String) (sink : List Row)
    (hdo : cfg.delete_orphans = true) (hkc : cfg.key_columns ≠ [])
    (hfp : fp ∈ files) :
    uploadCsvToSupabase cfg bs send true delAlwaysOk fp files [] sink =
      { status := UploadStatus.completed, totalCount := 0, currentKeys := ∅,
        sent := [], reconRan := true, sinkAfter := [],
        rowsDeleted := ((sink.map (keyTuple cfg.key_columns)).dedup).length,
        files := files.erase fp } := by
  have hup : uploadLoop cfg bs send ([] : List Row) ⟨[], ∅, 0, []⟩ =
      (⟨[], ∅, 0, []⟩, UploadStatus.completed) := by
    simp [uploadLoop]
  have hkce : cfg.key_columns.isEmpty = false := isEmpty_false_of_ne_nil hkc
  have hnil : (deleteOrphanedRecords cfg.key_columns ∅ true delAlwaysOk sink).1 = [] := by
    rw [List.eq_nil_iff_forall_not_mem]
    intro r hrmem
    rw [deleteOrphanedRecords_fst,
      deleteLoop_mem cfg.key_columns delAlwaysOk _ sink r
        (fun k hk h => DelRes.noConfusion h)] at hrmem
    obtain ⟨hrs, hno⟩ := hrmem
    apply hno
    refine ⟨?_, rfl⟩
    rw [mem_orphanKeys]
    exact ⟨List.mem_map_of_mem _ hrs, Finset.not_mem_empty _⟩
  have hcnt : (deleteOrphanedRecords cfg.key_columns ∅ true delAlwaysOk sink).2 =
      ((sink.map (keyTuple cfg.key_columns)).dedup).length := by
    rw [deleteOrphanedRecords_count cfg.key_columns ∅ delAlwaysOk sink
      (fun k hk h => DelRes.noConfusion h)]
    have hsame : orphanKeys cfg.key_columns ∅ sink =
        (sink.map (keyTuple cfg.key_columns)).dedup := by
      rw [orphanKeys]
      apply List.filter_eq_self.mpr
      intro k hk
      simp
    rw [hsame]
    have hall : okKeys delAlwaysOk ((sink.map (keyTuple cfg.key_columns)).dedup) =
        (sink.map (keyTuple cfg.key_columns)).dedup := by
      rw [okKeys]
      apply List.filter_eq_self.mpr
      intro k hk
      rfl
    rw [hall]
  rw [uploadCsvToSupabase, if_pos hfp, hup]
  simp [finishUpload, reconStep, hdo, hkce, applySent, hnil, hcnt]

theorem empty_source_deletes_all_sink_records_witness :
    (wCfg.delete_orphans = true ∧ wCfg.key_columns ≠ [] ∧
      wFp ∈ ({wFp} : Finset String)) ∧
    uploadCsvToSupabase wCfg 2 sendAllOk true delAlwaysOk wFp {wFp} [] wSink2 =
      { status := UploadStatus.completed, totalCount := 0, currentKeys := ∅,
        sent := [], reconRan := true, sinkAfter := [],
        rowsDeleted := ((wSink2.map (keyTuple wCfg.key_columns)).dedup).length,
        files := ({wFp} : Finset String).erase wFp } :=
  ⟨⟨by decide, by decide, by decide⟩,
    empty_source_deletes_all_sink_records wCfg 2 sendAllOk wFp {wFp} wSink2
      (by decide) (by decide) (by decide)⟩

/-- C9: whenever the reconciler is invoked for a table, the delivered key set
handed to it is exactly the set of stringified key tuples of all rows read
from the extracted file. -/
theorem delivered_keyset_equals_all_rows_keys
    (cfg : TableConfig) (bs : Nat) (send : Nat → SendRes) (fetchOk : Bool)
    (delRes : List String → DelRes) (fp : String) (files : Finset String)
    (rows : List Row) (sink : List Row)
    (hrec : (uploadCsvToSupabase cfg bs send fetchOk delRes fp files rows sink).reconRan = true) :
    (uploadCsvToSupabase cfg bs send fetchOk delRes fp files rows sink).currentKeys =
      (rows.map (keyTuple cfg.key_columns)).toFinset := by
  by_cases hfp : fp ∈ files
  · rw [uploadCsvToSupabase, if_pos hfp] at hrec ⊢
    simp only [finishUpload] at hrec ⊢
    rw [Bool.and_eq_true, Bool.and_eq_true] at hrec
    obtain ⟨⟨hcomp, hdo⟩, hkne⟩ := hrec
    have hcomp2 : (uploadLoop cfg bs send rows ⟨[], ∅, 0, []⟩).2 = UploadStatus.completed :=
      of_decide_eq_true hcomp
    have hkce : cfg.key_columns.isEmpty = false := by
      cases h : cfg.key_columns.isEmpty
      · rfl
      · rw [h] at hkne; simp at hkne
    rw [uploadLoop_completed_keys cfg bs send rows ⟨[], ∅, 0, []⟩ hcomp2]
    rw [foldl_trackKeys cfg hdo hkce]
    simp
  · rw [uploadCsvToSupabase, if_neg hfp] at hrec
    simp at hrec

theorem delivered_keyset_equals_all_rows_keys_witness :
    (uploadCsvToSupabase wCfg 2 sendAllOk true delAlwaysOk wFp {wFp} wRows4 []).reconRan
      = true ∧
    (uploadCsvToSupabase wCfg 2 sendAllOk true delAlwaysOk wFp {wFp} wRows4 []).currentKeys =
      (wRows4.map (keyTuple wCfg.key_columns)).toFinset :=
  ⟨by decide, delivered_keyset_equals_all_rows_keys wCfg 2 sendAllOk true delAlwaysOk
    wFp {wFp} wRows4 [] (by decide)⟩

/-- C10: on every outcome of the upload stage (completion, early return on a
rejected batch, caught exception, or missing file) the temporary extracted
file does not exist when the stage returns. -/
theorem temp_file_removed_on_all_paths
    (cfg : TableConfig) (bs : Nat) (send : Nat → SendRes) (fetchOk : Bool)
    (delRes : List String → DelRes) (fp : String) (files : Finset String)
    (rows : List Row) (sink : List Row) :
    fp ∉ (uploadCsvToSupabase cfg bs send fetchOk delRes fp files rows sink).files := by
  by_cases hfp : fp ∈ files
  · rw [uploadCsvToSupabase, if_pos hfp]
    simp [finishUpload]
  · rw [uploadCsvToSupabase, if_neg hfp]
    simpa using hfp

/-- C7 counterexample: a run whose only table fails extraction still ends
with exit code 0; the claim that the process exits non-zero whenever a table
ends failed is false at this input. -/
theorem failed_table_exit_code_zero :
    (mainRun true wEnvFail BATCH_SIZE wSpecs1).1 = [wRepFail] ∧
    tableFailed wRepFail = true ∧
    (mainRun true wEnvFail BATCH_SIZE wSpecs1).2 = 0 := by decide

/-- C7 amended: the entry point runs all configured table specs in
declaration order when the environment variables are present, but the process
exit code is always 0, whether or not any table ends in a failed state (and
also when the environment variables are missing). -/
theorem main_runs_in_order_always_exit_zero
    (envVarsOk : Bool) (env : SyncEnv) (bs : Nat)
    (specs : List (String × TableConfig)) :
    (mainRun envVarsOk env bs specs).2 = 0 ∧
    (mainRun true env bs specs).1 = specs.map (fun p => runTable env bs p.1 p.2) := by
  constructor
  · cases envVarsOk <;> rfl
  · rw [mainRun, if_pos rfl]
    exact runAllSyncs_eq_map env bs specs

/-- C8: a table whose processing fails does not prevent the subsequent specs
from being processed: after the failed head table, the remaining reports are
exactly those of each later spec processed on its own. -/
theorem failed_table_does_not_block_subsequent
    (env : SyncEnv) (bs : Nat) (n : String) (c : TableConfig)
    (post : List (String × TableConfig))
    (hfail : tableFailed (runTable env bs n c) = true) :
    (runAllSyncs env bs ((n, c) :: post)).drop 1 =
      post.map (fun p => runTable env bs p.1 p.2) := by
  rw [runAllSyncs_eq_map env bs ((n, c) :: post)]
  simp

theorem failed_table_does_not_block_subsequent_witness :
    tableFailed (runTable wEnvMixed 2 wUsers wCfg) = true ∧
    (runAllSyncs wEnvMixed 2 [(wUsers, wCfg), (wCoupons, wCfg)]).drop 1 =
      [runTable wEnvMixed 2 wCoupons wCfg] :=
  ⟨by decide, failed_table_does_not_block_subsequent wEnvMixed 2 wUsers wCfg
    [(wCoupons, wCfg)] (by decide)⟩

end SyncData
